import Mathlib

/-!
Verification of the allocator abstraction of the `allocator_api` crate.

The development shallowly embeds, over `Nat`:

* the `usize` arithmetic used by `LayoutExt::padding_needed_for`,
  `LayoutExt::repeat` and `LayoutExt::array` (src/src/libcore/alloc.rs);
* the `Layout` value type re-exported from `core::alloc` (whose constructor
  `from_size_align` is modelled from the specification, as its source is not
  part of this repository);
* the default method bodies of the `AllocRef` trait (`alloc_zeroed`,
  `realloc`, `grow_in_place`, `shrink_in_place`) over an abstract table of
  primitive allocator methods, with an explicit byte memory and an explicit
  trace of allocator-method calls;
* the out-of-memory hook machinery of src/src/libstd/alloc.rs;
* `Box::new_in` and the `Box` drop glue of src/src/liballoc/boxed.rs;
* the raw buffer `reserve` operation, modelled from the specification
  because src/src/liballoc/raw_vec.rs is declared by src/src/lib.rs but its
  source file is not present under src/.
-/

/-! ## The `usize` machine model (64-bit) -/

/-- Number of bits of `usize` on the modelled platform. -/
def USIZE_BITS : Nat := 64

/-- The value `usize::MAX`, the maximum addressable size of the platform. -/
def USIZE_MAX : Nat := 2 ^ USIZE_BITS - 1

/-- Wrapping 64-bit addition (`usize::wrapping_add`). -/
def wadd (a b : Nat) : Nat := (a + b) % 2 ^ USIZE_BITS

/-- Wrapping 64-bit subtraction (`usize::wrapping_sub`). -/
def wsub (a b : Nat) : Nat := (a % 2 ^ USIZE_BITS + (2 ^ USIZE_BITS - b % 2 ^ USIZE_BITS)) % 2 ^ USIZE_BITS

/-- Bitwise 64-bit complement (the `!` operator on `usize`). -/
def wnot (a : Nat) : Nat := USIZE_MAX - a % 2 ^ USIZE_BITS

/-! ## Layout -/

/-- The type `core::alloc::LayoutErr`: an opaque layout-validation error value. -/
structure LayoutErr where
  deriving DecidableEq, Repr

/-- A memory layout descriptor: a size in bytes and an alignment in bytes.
This is the raw data of `core::alloc::Layout`; validity of the pair is
tracked by `Layout.valid` and checked by `Layout.from_size_align`. -/
structure Layout where
  size : Nat
  align : Nat
  deriving DecidableEq, Repr

/-- The value `size` rounded up to the nearest multiple of `align` (exact arithmetic,
used to state the layout overflow invariant). -/
def roundUpTo (size align : Nat) : Nat := align * ((size + align - 1) / align)

/-- Executable test that `n` is a power of two. -/
def isPowTwo (n : Nat) : Bool := decide (0 < n) && decide (n = 2 ^ Nat.log2 n)

/-- The invariant of a `Layout` holding `usize` values: the alignment is a
power of two (hence also nonzero and representable), and the size, when
rounded up to a multiple of the alignment, does not overflow `usize`. -/
def Layout.valid (l : Layout) : Prop :=
  (∃ k, k ≤ 63 ∧ l.align = 2 ^ k) ∧ roundUpTo l.size l.align ≤ USIZE_MAX

/-- Rust `Layout::from_size_align_unchecked`: builds the descriptor without
validation. -/
def Layout.from_size_align_unchecked (size align : Nat) : Layout := ⟨size, align⟩

/-- Modelled from the spec: `core::alloc::Layout::from_size_align` is
re-exported by src/src/libcore/alloc.rs (line 14) but its source is not part
of this repository.  Per the specification (§3), constructing a descriptor
with a non-power-of-two alignment, or a size that (rounded up to a multiple
of the alignment) overflows the maximum addressable size, fails with a
validation error; the overflow test is the standard library guard
`size > usize::MAX - (align - 1)`. -/
def Layout.from_size_align (size align : Nat) : Except LayoutErr Layout :=
  if !isPowTwo align then .error ⟨⟩
  else if size > USIZE_MAX - (align - 1) then .error ⟨⟩
  else .ok (Layout.from_size_align_unchecked size align)

/-- Function `LayoutExt::padding_needed_for` (src/src/libcore/alloc.rs lines 51-75):
the amount of padding after `self` so that the following address satisfies
`align`, computed with wrapping `usize` arithmetic exactly as the source
does: `len.wrapping_add(align).wrapping_sub(1) & !align.wrapping_sub(1)`,
then `len_rounded_up.wrapping_sub(len)`. -/
def Layout.padding_needed_for (l : Layout) (align : Nat) : Nat :=
  let len := l.size
  let len_rounded_up := wsub (wadd len align) 1 &&& wnot (wsub align 1)
  wsub len_rounded_up len

/-- Checked multiplication, `usize::checked_mul`. -/
def checked_mul (a b : Nat) : Option Nat :=
  if a * b > USIZE_MAX then none else some (a * b)

/-- Function `LayoutExt::repeat` (src/src/libcore/alloc.rs lines 86-102): the layout
of `n` instances of `self` with padding between the instances, and the
stride between the start of consecutive instances.  Fails on arithmetic
overflow of the total size. -/
def Layout.repeat (l : Layout) (n : Nat) : Except LayoutErr (Layout × Nat) :=
  let padded_size := l.size + l.padding_needed_for l.align
  match checked_mul padded_size n with
  | none => .error ⟨⟩
  | some alloc_size =>
      .ok (Layout.from_size_align_unchecked alloc_size l.align, padded_size)

/-- Function `LayoutExt::array::<T>` (src/src/libcore/alloc.rs lines 107-112), with
the layout of the element type `T` passed explicitly: `repeat` of
`Layout::new::<T>()`, keeping only the array layout. -/
def Layout.array (elt : Layout) (n : Nat) : Except LayoutErr Layout :=
  (elt.repeat n).map (fun p => p.1)

deriving instance DecidableEq for Except

/-! ## Basic facts about `roundUpTo` -/

theorem roundUpTo_zero_align (s : Nat) : roundUpTo s 0 = 0 := by
  simp [roundUpTo]

theorem le_roundUpTo (s a : Nat) (ha : 0 < a) : s ≤ roundUpTo s a := by
  rcases Nat.eq_zero_or_pos s with hs | hs
  · simp [hs]
  · unfold roundUpTo
    have h1 : s + a - 1 = (s - 1) + a := by omega
    rw [h1, Nat.add_div_right _ ha, Nat.mul_add, Nat.mul_one]
    have h2 : a * ((s - 1) / a) + (s - 1) % a = s - 1 := by
      rw [Nat.div_add_mod]
    have h3 : (s - 1) % a < a := Nat.mod_lt _ ha
    omega

theorem dvd_roundUpTo (s a : Nat) : a ∣ roundUpTo s a := Dvd.intro _ rfl

theorem roundUpTo_eq_self (s a : Nat) (ha : 0 < a) (h : a ∣ s) :
    roundUpTo s a = s := by
  rcases h with ⟨q, rfl⟩
  unfold roundUpTo
  rcases Nat.eq_zero_or_pos q with hq | hq
  · subst hq
    simp [Nat.div_eq_of_lt (show a - 1 < a by omega)]
  · have h1 : a * q + a - 1 = a * q + (a - 1) := by omega
    rw [h1, Nat.mul_add_div ha, Nat.div_eq_of_lt (by omega), Nat.add_zero]

theorem roundUpTo_mono (s t a : Nat) (h : s ≤ t) :
    roundUpTo s a ≤ roundUpTo t a := by
  apply Nat.mul_le_mul_left
  apply Nat.div_le_div_right
  omega

theorem roundUpTo_le_of_dvd (s a m : Nat) (ha : 0 < a) (hm : a ∣ m)
    (h : s ≤ m) : roundUpTo s a ≤ m := by
  calc roundUpTo s a ≤ roundUpTo m a := roundUpTo_mono s m a h
  _ = m := roundUpTo_eq_self m a ha hm

/-! ## The wrapping padding computation agrees with exact rounding -/

theorem land_high_mask (x k : Nat) (hx : x < 2 ^ 64) (hk : k ≤ 64) :
    x &&& (2 ^ 64 - 2 ^ k) = 2 ^ k * (x / 2 ^ k) := by
  have hmask : 2 ^ 64 - 2 ^ k = (2 ^ (64 - k) - 1) <<< k := by
    rw [Nat.shiftLeft_eq, Nat.sub_mul, one_mul, ← Nat.pow_add]
    rw [Nat.sub_add_cancel hk]
  have hrhs : 2 ^ k * (x / 2 ^ k) = (x >>> k) <<< k := by
    rw [Nat.shiftRight_eq_div_pow, Nat.shiftLeft_eq, Nat.mul_comm]
  rw [hmask, hrhs]
  apply Nat.eq_of_testBit_eq
  intro i
  rw [Nat.testBit_land, Nat.testBit_shiftLeft, Nat.testBit_shiftLeft,
      Nat.testBit_two_pow_sub_one, Nat.testBit_shiftRight]
  by_cases hik : k ≤ i
  · by_cases hi64 : i < 64
    · have h1 : i - k < 64 - k := by omega
      have h2 : k + (i - k) = i := by omega
      simp [hik, h1, h2, ge_iff_le]
    · have h1 : ¬ i - k < 64 - k := by omega
      have h2 : x.testBit i = false :=
        Nat.testBit_lt_two_pow
          (lt_of_lt_of_le hx (Nat.pow_le_pow_right (by omega) (by omega)))
      have h3 : k + (i - k) = i := by omega
      simp [hik, h1, h2, h3, ge_iff_le]
  · simp [hik, ge_iff_le]

theorem wsub_small (a b : Nat) (ha : a < 2 ^ USIZE_BITS) (hb : b ≤ a) :
    wsub a b = a - b := by
  unfold wsub
  have h1 : a % 2 ^ USIZE_BITS = a := Nat.mod_eq_of_lt ha
  have h2 : b % 2 ^ USIZE_BITS = b := Nat.mod_eq_of_lt (lt_of_le_of_lt hb ha)
  rw [h1, h2]
  have h3 : a + (2 ^ USIZE_BITS - b) = (a - b) + 2 ^ USIZE_BITS := by omega
  rw [h3, Nat.add_mod_right, Nat.mod_eq_of_lt (by omega)]

theorem wadd_wsub_one (x y : Nat) (h1 : 1 ≤ x + y) (h2 : x + y ≤ 2 ^ USIZE_BITS) :
    wsub (wadd x y) 1 = x + y - 1 := by
  rcases Nat.lt_or_ge (x + y) (2 ^ USIZE_BITS) with h | h
  · rw [show wadd x y = x + y from Nat.mod_eq_of_lt h]
    exact wsub_small _ _ h h1
  · have hxy : x + y = 2 ^ USIZE_BITS := by omega
    have hz : wadd x y = 0 := by rw [wadd, hxy, Nat.mod_self]
    rw [hz]
    have h0 : wsub 0 1 = 2 ^ USIZE_BITS - 1 := by
      unfold wsub USIZE_BITS
      norm_num
    rw [h0]
    omega

theorem dvd_le_sub_of_lt (a M r : Nat) (ha : 0 < a) (hM : a ∣ M) (hd : a ∣ r)
    (hr : r < M) : r ≤ M - a := by
  rcases hM with ⟨n, rfl⟩
  rcases hd with ⟨m, rfl⟩
  have hmn : m < n := by
    by_contra hc
    exact absurd (Nat.mul_le_mul_left a (Nat.le_of_not_lt hc)) (Nat.not_le_of_lt hr)
  calc a * m ≤ a * (n - 1) := Nat.mul_le_mul_left a (by omega)
  _ = a * n - a := by rw [Nat.mul_sub, Nat.mul_one]

/-- Bounds extracted from layout validity: the size, and the size plus
alignment minus one, are both representable, and the rounded-up size stays
at or below the last multiple of the alignment that is representable. -/
theorem Layout.valid_bounds (l : Layout) (hv : l.valid) :
    0 < l.align ∧ l.align ≤ 2 ^ 63 ∧
      roundUpTo l.size l.align ≤ 2 ^ 64 - l.align ∧
      l.size + l.align - 1 < 2 ^ 64 := by
  obtain ⟨⟨k, hk, halign⟩, hru⟩ := hv
  have hpos : 0 < l.align := by rw [halign]; exact Nat.pos_pow_of_pos k (by omega)
  have hle : l.align ≤ 2 ^ 63 := by
    rw [halign]; exact Nat.pow_le_pow_right (by omega) hk
  have hdvd64 : l.align ∣ 2 ^ 64 := by
    rw [halign]; exact Nat.pow_dvd_pow 2 (by omega)
  have hrle : roundUpTo l.size l.align ≤ 2 ^ 64 - l.align := by
    apply dvd_le_sub_of_lt _ _ _ hpos hdvd64 (dvd_roundUpTo _ _)
    have : USIZE_MAX < 2 ^ 64 := by unfold USIZE_MAX USIZE_BITS; omega
    omega
  have hsz : l.size ≤ roundUpTo l.size l.align := le_roundUpTo _ _ hpos
  exact ⟨hpos, hle, hrle, by omega⟩

/-- Under the layout validity invariant, the wrapping bit-twiddling in
`padding_needed_for` computes exactly the mathematical padding: the
distance from the size up to its rounding to a multiple of the alignment. -/
theorem padding_needed_for_eq (l : Layout) (hv : l.valid) :
    l.padding_needed_for l.align = roundUpTo l.size l.align - l.size := by
  obtain ⟨hpos, hle63, hrle, hlen⟩ := l.valid_bounds hv
  obtain ⟨⟨k, hk, halign⟩, _⟩ := hv
  have hdef : l.padding_needed_for l.align
      = wsub (wsub (wadd l.size l.align) 1 &&& wnot (wsub l.align 1)) l.size := rfl
  rw [hdef]
  have e1 : wsub l.align 1 = l.align - 1 :=
    wsub_small _ _ (by unfold USIZE_BITS; omega) hpos
  have e2 : wnot (l.align - 1) = 2 ^ 64 - l.align := by
    unfold wnot USIZE_MAX USIZE_BITS
    rw [Nat.mod_eq_of_lt (by omega)]
    omega
  have e3 : wsub (wadd l.size l.align) 1 = l.size + l.align - 1 :=
    wadd_wsub_one _ _ (by omega) (by unfold USIZE_BITS; omega)
  rw [e1, e2, e3]
  have e4 : (l.size + l.align - 1) &&& (2 ^ 64 - l.align)
      = roundUpTo l.size l.align := by
    rw [halign] at hlen ⊢
    rw [land_high_mask _ _ hlen (by omega)]
    rfl
  rw [e4]
  exact wsub_small _ _ (by unfold USIZE_BITS; omega)
    (le_roundUpTo _ _ hpos)

/-! ## Power-of-two test -/

theorem isPowTwo_iff (n : Nat) : isPowTwo n = true ↔ ∃ k, n = 2 ^ k := by
  constructor
  · intro h
    unfold isPowTwo at h
    simp only [Bool.and_eq_true, decide_eq_true_eq] at h
    exact ⟨Nat.log2 n, h.2⟩
  · rintro ⟨k, rfl⟩
    unfold isPowTwo
    have h1 : Nat.log2 (2 ^ k) = k := by
      rw [Nat.log2_eq_log_two]
      exact Nat.log_pow (show (1:ℕ) < 2 by norm_num) k
    simp only [Bool.and_eq_true, decide_eq_true_eq, h1]
    exact ⟨Nat.pos_pow_of_pos k (by omega), trivial⟩

/-- The standard library overflow guard `size ≤ usize::MAX - (align - 1)`
says exactly that `size`, rounded up to a multiple of `align`, is
representable. -/
theorem size_guard_iff (size k : Nat) (hk : k ≤ 63) :
    size ≤ USIZE_MAX - (2 ^ k - 1) ↔ roundUpTo size (2 ^ k) ≤ USIZE_MAX := by
  have hpos : 0 < 2 ^ k := Nat.pos_pow_of_pos k (by omega)
  have hdvd64 : (2 ^ k : Nat) ∣ 2 ^ 64 := Nat.pow_dvd_pow 2 (by omega)
  have hklt : (2 ^ k : Nat) ≤ 2 ^ 63 := Nat.pow_le_pow_right (by omega) hk
  have hmax : USIZE_MAX = 2 ^ 64 - 1 := rfl
  have hguard : USIZE_MAX - (2 ^ k - 1) = 2 ^ 64 - 2 ^ k := by
    rw [hmax]; omega
  rw [hguard]
  constructor
  · intro h
    have h1 : roundUpTo size (2 ^ k) ≤ 2 ^ 64 - 2 ^ k := by
      apply roundUpTo_le_of_dvd _ _ _ hpos _ h
      have : (2 ^ 64 : Nat) - 2 ^ k = 2 ^ k * (2 ^ (64 - k) - 1) := by
        rw [Nat.mul_sub, Nat.mul_one, ← Nat.pow_add]
        rw [show k + (64 - k) = 64 by omega]
      rw [this]
      exact Dvd.intro _ rfl
    omega
  · intro h
    have h1 : roundUpTo size (2 ^ k) ≤ 2 ^ 64 - 2 ^ k := by
      apply dvd_le_sub_of_lt _ _ _ hpos hdvd64 (dvd_roundUpTo _ _)
      omega
    have h2 : size ≤ roundUpTo size (2 ^ k) := le_roundUpTo _ _ hpos
    omega

/-- Claim C6: for every `usize` pair `(size, align)`, constructing a layout
descriptor succeeds if and only if `align` is a power of two and `size`,
rounded up to a multiple of `align`, does not overflow the maximum
addressable size; on success the `size` and `align` fields hold exactly the
given values (round-trip), and on failure a validation error value is
returned (never a clamped layout). -/
theorem from_size_align_spec (size align : Nat) (ha : align ≤ USIZE_MAX) :
    ((∃ l, Layout.from_size_align size align = .ok l) ↔
      ((∃ k, align = 2 ^ k) ∧ roundUpTo size align ≤ USIZE_MAX)) ∧
    (∀ l, Layout.from_size_align size align = .ok l →
      l.size = size ∧ l.align = align) ∧
    (¬ ((∃ k, align = 2 ^ k) ∧ roundUpTo size align ≤ USIZE_MAX) →
      Layout.from_size_align size align = .error ⟨⟩) := by
  by_cases hp : isPowTwo align = true
  · obtain ⟨k, rfl⟩ := (isPowTwo_iff align).mp hp
    have hk : k ≤ 63 := by
      by_contra hc
      have h1 : (2 ^ 64 : Nat) ≤ 2 ^ k := Nat.pow_le_pow_right (by omega) (by omega)
      have h2 : USIZE_MAX = 2 ^ 64 - 1 := rfl
      omega
    have hiff := size_guard_iff size k hk
    by_cases hg : size ≤ USIZE_MAX - (2 ^ k - 1)
    · have hok : Layout.from_size_align size (2 ^ k) = .ok ⟨size, 2 ^ k⟩ := by
        unfold Layout.from_size_align
        rw [hp]
        simp only [Bool.not_true, Bool.false_eq_true, if_false]
        rw [if_neg (by omega)]
        rfl
      refine ⟨?_, ?_, ?_⟩
      · exact iff_of_true ⟨_, hok⟩ ⟨⟨k, rfl⟩, hiff.mp hg⟩
      · intro l hl
        rw [hok] at hl
        cases hl
        exact ⟨rfl, rfl⟩
      · intro hc
        exact absurd ⟨⟨k, rfl⟩, hiff.mp hg⟩ hc
    · have herr : Layout.from_size_align size (2 ^ k) = .error ⟨⟩ := by
        unfold Layout.from_size_align
        rw [hp]
        simp only [Bool.not_true, Bool.false_eq_true, if_false]
        rw [if_pos (by omega)]
      refine ⟨?_, ?_, ?_⟩
      · apply iff_of_false
        · rintro ⟨l, hl⟩
          rw [herr] at hl
          cases hl
        · rintro ⟨-, hru⟩
          exact hg (hiff.mpr hru)
      · intro l hl
        rw [herr] at hl
        cases hl
      · intro _
        exact herr
  · have herr : Layout.from_size_align size align = .error ⟨⟩ := by
      unfold Layout.from_size_align
      rw [Bool.not_eq_true] at hp
      rw [hp]
      rfl
    have hnp : ¬ ∃ k, align = 2 ^ k := fun hc => hp ((isPowTwo_iff align).mpr hc)
    refine ⟨?_, ?_, ?_⟩
    · apply iff_of_false
      · rintro ⟨l, hl⟩
        rw [herr] at hl
        cases hl
      · rintro ⟨hc, -⟩
        exact hnp hc
    · intro l hl
      rw [herr] at hl
      cases hl
    · intro _
      exact herr

/-- Witness for `from_size_align_spec`, at the concrete pair `(8, 4)` (a
valid layout) and, through the failure branch, at `(5, 3)` (non-power-of-two
alignment). -/
theorem from_size_align_spec_witness :
    ((Layout.mk 8 4).size = 8 ∧ (Layout.mk 8 4).align = 4) ∧
      Layout.from_size_align 5 3 = .error ⟨⟩ := by
  constructor
  · have h := (from_size_align_spec 8 4 (by decide)).2.1
    have h4 : isPowTwo 4 = true := (isPowTwo_iff 4).mpr ⟨2, by norm_num⟩
    have hok : Layout.from_size_align 8 4 = .ok ⟨8, 4⟩ := by
      unfold Layout.from_size_align
      rw [h4]
      norm_num [USIZE_MAX, USIZE_BITS, Layout.from_size_align_unchecked]
    exact h ⟨8, 4⟩ hok
  · have h := (from_size_align_spec 5 3 (by decide)).2.2
    apply h
    rintro ⟨⟨k, hk⟩, -⟩
    rcases k with _ | _ | k
    · simp at hk
    · simp at hk
    · have h4 : (4:Nat) ≤ 2 ^ (k + 2) := by
        calc (4:Nat) = 2 ^ 2 := by norm_num
        _ ≤ 2 ^ (k + 2) := Nat.pow_le_pow_right (by norm_num) (by omega)
      omega

/-! ## Repeat and array layouts (C5) -/

theorem repeat_def (l : Layout) (n : Nat) :
    l.repeat n =
      match checked_mul (l.size + l.padding_needed_for l.align) n with
      | none => .error ⟨⟩
      | some alloc_size =>
          .ok (Layout.from_size_align_unchecked alloc_size l.align,
            l.size + l.padding_needed_for l.align) := rfl

/-- Claim C5: for every valid layout `l` and count `n`, `LayoutExt::repeat`
returns an error exactly when the size plus the padding needed to round it
up to a multiple of the alignment, multiplied by `n`, overflows the maximum
addressable size; otherwise it returns a layout of exactly that product as
size with the original alignment, together with the padded size as the
element stride.  Consequently `LayoutExt::array`, whose element layout has
its size a multiple of its alignment (as Rust guarantees for type layouts),
fails with a layout error exactly when `n` times the element size
overflows, rather than silently wrapping. -/
theorem layout_repeat_spec (l : Layout) (n : Nat) (hv : l.valid) :
    (l.repeat n = .error ⟨⟩ ↔
      (l.size + (roundUpTo l.size l.align - l.size)) * n > USIZE_MAX) ∧
    (∀ k stride, l.repeat n = .ok (k, stride) →
      stride = l.size + (roundUpTo l.size l.align - l.size) ∧
      k.size = stride * n ∧ k.align = l.align) ∧
    (l.align ∣ l.size →
      (l.array n = .error ⟨⟩ ↔ l.size * n > USIZE_MAX)) := by
  obtain ⟨hpos, -, -, -⟩ := l.valid_bounds hv
  have hpad := padding_needed_for_eq l hv
  have hle := le_roundUpTo l.size l.align hpos
  have hps : l.size + l.padding_needed_for l.align = roundUpTo l.size l.align := by
    rw [hpad]; omega
  have hsum : l.size + (roundUpTo l.size l.align - l.size)
      = roundUpTo l.size l.align := by omega
  by_cases hov : roundUpTo l.size l.align * n > USIZE_MAX
  · have hcm : checked_mul (l.size + l.padding_needed_for l.align) n = none := by
      rw [hps]; unfold checked_mul; rw [if_pos hov]
    have herr : l.repeat n = .error ⟨⟩ := by
      rw [repeat_def, hcm]
    refine ⟨?_, ?_, ?_⟩
    · rw [hsum]; exact iff_of_true herr hov
    · intro k stride hk
      rw [herr] at hk
      cases hk
    · intro hdvd
      have hrus : roundUpTo l.size l.align = l.size :=
        roundUpTo_eq_self _ _ hpos hdvd
      have harr : l.array n = .error ⟨⟩ := by
        unfold Layout.array
        rw [herr]
        rfl
      rw [hrus] at hov
      exact iff_of_true harr hov
  · have hcm : checked_mul (l.size + l.padding_needed_for l.align) n
        = some ((l.size + l.padding_needed_for l.align) * n) := by
      unfold checked_mul
      rw [if_neg (by rw [hps]; exact hov)]
    have hok : l.repeat n
        = .ok (Layout.from_size_align_unchecked
            ((l.size + l.padding_needed_for l.align) * n) l.align,
          l.size + l.padding_needed_for l.align) := by
      rw [repeat_def, hcm]
    refine ⟨?_, ?_, ?_⟩
    · rw [hsum]
      apply iff_of_false _ (by omega)
      intro hc
      rw [hok] at hc
      cases hc
    · intro k stride hk
      rw [hok] at hk
      injection hk with h1
      injection h1 with h2 h3
      subst h2
      subst h3
      exact ⟨by rw [hpad], rfl, rfl⟩
    · intro hdvd
      have hrus : roundUpTo l.size l.align = l.size :=
        roundUpTo_eq_self _ _ hpos hdvd
      have harr : l.array n
          = .ok (Layout.from_size_align_unchecked
              ((l.size + l.padding_needed_for l.align) * n) l.align) := by
        unfold Layout.array
        rw [hok]
        rfl
      apply iff_of_false
      · intro hc
        rw [harr] at hc
        cases hc
      · rw [hrus] at hov
        omega

/-- Witness for `layout_repeat_spec`: the layout `(size 9, align 4)` is
valid, its triple repetition is `(size 36, align 4)` with stride 12, and the
theorem recovers the stride and total size. -/
theorem layout_repeat_spec_witness :
    (12:Nat) = 9 + (roundUpTo 9 4 - 9) ∧
      (Layout.mk 36 4).size = 12 * 3 ∧ (Layout.mk 36 4).align = (Layout.mk 9 4).align := by
  have hv : (Layout.mk 9 4).valid := by
    refine ⟨⟨2, by norm_num, rfl⟩, ?_⟩
    show roundUpTo 9 4 ≤ USIZE_MAX
    norm_num [roundUpTo, USIZE_MAX, USIZE_BITS]
  have h := (layout_repeat_spec ⟨9, 4⟩ 3 hv).2.1 ⟨36, 4⟩ 12 (by decide)
  exact h

/-! ## The `AllocRef` trait model -/

/-- Error `AllocErr` (src/src/libcore/alloc.rs line 120): allocation failure. -/
structure AllocErr where
  deriving DecidableEq, Repr

/-- Error `CannotReallocInPlace` (src/src/libcore/alloc.rs line 136): in-place
resize was not possible. -/
structure CannotReallocInPlace where
  deriving DecidableEq, Repr

/-- Byte memory: the contents of every address. -/
def Mem : Type := Nat → Nat

/-- Function `core::ptr::write_bytes(p, v, len)`. -/
def memWriteBytes (mem : Mem) (p v len : Nat) : Mem :=
  fun a => if p ≤ a ∧ a < p + len then v else mem a

/-- Function `core::ptr::copy_nonoverlapping(src, dst, len)`. -/
def memCopy (mem : Mem) (src dst len : Nat) : Mem :=
  fun a => if dst ≤ a ∧ a < dst + len then mem (src + (a - dst)) else mem a

/-- Trace events: one per allocator-method call, plus one for an invocation
of the out-of-memory handler (`handle_alloc_error`). -/
inductive AEvent where
  | allocCall (l : Layout)
  | deallocCall (p : Nat) (l : Layout)
  | growCall (p : Nat) (l : Layout) (new_size : Nat)
  | shrinkCall (p : Nat) (l : Layout) (new_size : Nat)
  | oomCall (l : Layout)
  deriving DecidableEq, Repr

/-- The primitive methods of an `AllocRef` implementation, as state
transformers over an implementation-chosen bookkeeping state `σ`.  `alloc`
returns a pointer and the usable size of the block.  Per the trait contract
the primitives do not alter the contents of live blocks; the explicit byte
memory is written only by the default method bodies modelled below. -/
structure AllocMethods (σ : Type) where
  alloc : Layout → σ → Except AllocErr (Nat × Nat) × σ
  dealloc : Nat → Layout → σ → σ
  grow_in_place : Nat → Layout → Nat → σ → Except CannotReallocInPlace Nat × σ
  shrink_in_place : Nat → Layout → Nat → σ → Except CannotReallocInPlace Nat × σ

/-- The default `grow_in_place` body (src/src/libcore/alloc.rs lines
477-487): it discards its arguments and unconditionally reports
`CannotReallocInPlace`, leaving the state untouched (it receives no memory
at all). -/
def growInPlaceDefault (σ : Type) (ptr : Nat) (layout : Layout) (new_size : Nat)
    (st : σ) : Except CannotReallocInPlace Nat × σ :=
  (.error ⟨⟩, st)

/-- The default `shrink_in_place` body (src/src/libcore/alloc.rs lines
557-567): identical shape to the default `grow_in_place`. -/
def shrinkInPlaceDefault (σ : Type) (ptr : Nat) (layout : Layout) (new_size : Nat)
    (st : σ) : Except CannotReallocInPlace Nat × σ :=
  (.error ⟨⟩, st)

/-- An implementation that overrides only `alloc` and `dealloc`, keeping the
default in-place methods of the trait. -/
def AllocMethods.withDefaults {σ : Type}
    (a : Layout → σ → Except AllocErr (Nat × Nat) × σ)
    (d : Nat → Layout → σ → σ) : AllocMethods σ :=
  { alloc := a
    dealloc := d
    grow_in_place := growInPlaceDefault σ
    shrink_in_place := shrinkInPlaceDefault σ }

/-- The default `alloc_zeroed` body (src/src/libcore/alloc.rs lines
290-297): `let size = layout.size(); let result = self.alloc(layout);
if let Ok((p, _)) = result { ptr::write_bytes(p.as_ptr(), 0, size) }
result`. -/
def allocZeroedDefault {σ : Type} (m : AllocMethods σ) (layout : Layout)
    (st : σ) (mem : Mem) :
    Except AllocErr (Nat × Nat) × σ × Mem × List AEvent :=
  match m.alloc layout st with
  | (.ok (p, usable), st1) =>
      (.ok (p, usable), st1, memWriteBytes mem p 0 layout.size, [.allocCall layout])
  | (.error e, st1) => (.error e, st1, mem, [.allocCall layout])

/-- The fall-back tail of the default `realloc` body (src/src/libcore/alloc.rs
lines 375-382): allocate a block of `new_size` bytes at the old alignment,
copy the lesser of the old and new sizes, deallocate the old block; on
allocation failure return the error untouched.  `evs` is the trace of the
in-place attempt that preceded the fall back. -/
def reallocFallback {σ : Type} (m : AllocMethods σ) (ptr : Nat) (layout : Layout)
    (new_size : Nat) (st : σ) (mem : Mem) (evs : List AEvent) :
    Except AllocErr (Nat × Nat) × σ × Mem × List AEvent :=
  match m.alloc (Layout.from_size_align_unchecked new_size layout.align) st with
  | (.ok (new_ptr, usable), st1) =>
      (.ok (new_ptr, usable), m.dealloc ptr layout st1,
        memCopy mem ptr new_ptr (min layout.size new_size),
        evs ++ [.allocCall (Layout.from_size_align_unchecked new_size layout.align),
          .deallocCall ptr layout])
  | (.error e, st1) =>
      (.error e, st1, mem,
        evs ++ [.allocCall (Layout.from_size_align_unchecked new_size layout.align)])

/-- The default `realloc` body (src/src/libcore/alloc.rs lines 355-383):
if `new_size` grows, try `grow_in_place` and return the original pointer on
success; if it shrinks, try `shrink_in_place` likewise; if it is unchanged,
return the original pointer immediately; otherwise fall back on
alloc + copy + dealloc. -/
def reallocDefault {σ : Type} (m : AllocMethods σ) (ptr : Nat) (layout : Layout)
    (new_size : Nat) (st : σ) (mem : Mem) :
    Except AllocErr (Nat × Nat) × σ × Mem × List AEvent :=
  if layout.size < new_size then
    match m.grow_in_place ptr layout new_size st with
    | (.ok size, st1) =>
        (.ok (ptr, size), st1, mem, [.growCall ptr layout new_size])
    | (.error _, st1) =>
        reallocFallback m ptr layout new_size st1 mem [.growCall ptr layout new_size]
  else if new_size < layout.size then
    match m.shrink_in_place ptr layout new_size st with
    | (.ok size, st1) =>
        (.ok (ptr, size), st1, mem, [.shrinkCall ptr layout new_size])
    | (.error _, st1) =>
        reallocFallback m ptr layout new_size st1 mem [.shrinkCall ptr layout new_size]
  else
    (.ok (ptr, new_size), st, mem, [])

/-! ## Default realloc (C1, C2) -/

theorem oomCall_not_in_fallback {σ : Type} (m : AllocMethods σ) (ptr : Nat)
    (layout : Layout) (new_size : Nat) (st : σ) (mem : Mem) (evs : List AEvent)
    (l : Layout) (h : AEvent.oomCall l ∉ evs) :
    AEvent.oomCall l ∉ (reallocFallback m ptr layout new_size st mem evs).2.2.2 := by
  unfold reallocFallback
  rcases halloc : m.alloc (Layout.from_size_align_unchecked new_size layout.align) st
    with ⟨e | ⟨p, usable⟩, st1⟩
  · simp [List.mem_append, h]
  · simp [List.mem_append, h]

/-- Claim C1: the default `realloc` returns `Ok(ptr, new_size)` immediately
when the size is unchanged, calling no other allocator method; on growth it
first tries `grow_in_place` and on success returns the original pointer with
the new usable size; on shrinkage it first tries `shrink_in_place` likewise;
otherwise it falls back on allocating a layout of the new size at the old
alignment, copying the lesser of the old and new sizes, and deallocating the
old block.  A `CannotReallocInPlace` outcome never escapes (the result type
can only carry `AllocErr`, and any surfaced error is the fall-back
allocation error), and the out-of-memory handler is never invoked. -/
theorem realloc_default_spec {σ : Type} (m : AllocMethods σ) (st : σ) (mem : Mem)
    (ptr : Nat) (layout : Layout) (new_size : Nat) :
    (new_size = layout.size →
      reallocDefault m ptr layout new_size st mem = (.ok (ptr, new_size), st, mem, [])) ∧
    (layout.size < new_size →
      (∀ sz st1, m.grow_in_place ptr layout new_size st = (.ok sz, st1) →
        reallocDefault m ptr layout new_size st mem
          = (.ok (ptr, sz), st1, mem, [.growCall ptr layout new_size])) ∧
      (∀ e st1, m.grow_in_place ptr layout new_size st = (.error e, st1) →
        reallocDefault m ptr layout new_size st mem
          = reallocFallback m ptr layout new_size st1 mem [.growCall ptr layout new_size])) ∧
    (new_size < layout.size →
      (∀ sz st1, m.shrink_in_place ptr layout new_size st = (.ok sz, st1) →
        reallocDefault m ptr layout new_size st mem
          = (.ok (ptr, sz), st1, mem, [.shrinkCall ptr layout new_size])) ∧
      (∀ e st1, m.shrink_in_place ptr layout new_size st = (.error e, st1) →
        reallocDefault m ptr layout new_size st mem
          = reallocFallback m ptr layout new_size st1 mem [.shrinkCall ptr layout new_size])) ∧
    (∀ st1 evs,
      (∀ p usable st2,
        m.alloc (Layout.from_size_align_unchecked new_size layout.align) st1
            = (.ok (p, usable), st2) →
        reallocFallback m ptr layout new_size st1 mem evs
          = (.ok (p, usable), m.dealloc ptr layout st2,
              memCopy mem ptr p (min layout.size new_size),
              evs ++ [.allocCall (Layout.from_size_align_unchecked new_size layout.align),
                .deallocCall ptr layout])) ∧
      (∀ e st2,
        m.alloc (Layout.from_size_align_unchecked new_size layout.align) st1
            = (.error e, st2) →
        reallocFallback m ptr layout new_size st1 mem evs
          = (.error e, st2, mem,
              evs ++ [.allocCall (Layout.from_size_align_unchecked new_size layout.align)]))) ∧
    (∀ l, AEvent.oomCall l ∉ (reallocDefault m ptr layout new_size st mem).2.2.2) ∧
    (∀ e, (reallocDefault m ptr layout new_size st mem).1 = .error e →
      ∃ st1 st2,
        m.alloc (Layout.from_size_align_unchecked new_size layout.align) st1
          = (.error e, st2)) := by
  refine ⟨?_, ?_, ?_, ?_, ?_, ?_⟩
  · intro h
    unfold reallocDefault
    rw [if_neg (by omega), if_neg (by omega)]
  · intro h
    constructor
    · intro sz st1 hg
      unfold reallocDefault
      rw [if_pos h, hg]
    · intro e st1 hg
      unfold reallocDefault
      rw [if_pos h, hg]
  · intro h
    constructor
    · intro sz st1 hs
      unfold reallocDefault
      rw [if_neg (by omega), if_pos h, hs]
    · intro e st1 hs
      unfold reallocDefault
      rw [if_neg (by omega), if_pos h, hs]
  · intro st1 evs
    constructor
    · intro p usable st2 halloc
      unfold reallocFallback
      rw [halloc]
    · intro e st2 halloc
      unfold reallocFallback
      rw [halloc]
  · intro l
    by_cases h1 : layout.size < new_size
    · rcases hg : m.grow_in_place ptr layout new_size st with ⟨ge | sz, st1⟩
      · have hred : reallocDefault m ptr layout new_size st mem
            = reallocFallback m ptr layout new_size st1 mem
                [.growCall ptr layout new_size] := by
          unfold reallocDefault
          rw [if_pos h1, hg]
        rw [hred]
        exact oomCall_not_in_fallback m ptr layout new_size st1 mem _ l (by simp)
      · have hred : reallocDefault m ptr layout new_size st mem
            = (.ok (ptr, sz), st1, mem, [.growCall ptr layout new_size]) := by
          unfold reallocDefault
          rw [if_pos h1, hg]
        rw [hred]
        simp
    · by_cases h2 : new_size < layout.size
      · rcases hs : m.shrink_in_place ptr layout new_size st with ⟨se | sz, st1⟩
        · have hred : reallocDefault m ptr layout new_size st mem
              = reallocFallback m ptr layout new_size st1 mem
                  [.shrinkCall ptr layout new_size] := by
            unfold reallocDefault
            rw [if_neg h1, if_pos h2, hs]
          rw [hred]
          exact oomCall_not_in_fallback m ptr layout new_size st1 mem _ l (by simp)
        · have hred : reallocDefault m ptr layout new_size st mem
              = (.ok (ptr, sz), st1, mem, [.shrinkCall ptr layout new_size]) := by
            unfold reallocDefault
            rw [if_neg h1, if_pos h2, hs]
          rw [hred]
          simp
      · have hred : reallocDefault m ptr layout new_size st mem
            = (.ok (ptr, new_size), st, mem, []) := by
          unfold reallocDefault
          rw [if_neg h1, if_neg h2]
        rw [hred]
        simp
  · intro e herr
    by_cases h1 : layout.size < new_size
    · rcases hg : m.grow_in_place ptr layout new_size st with ⟨ge | sz, st1⟩
      · have hred : reallocDefault m ptr layout new_size st mem
            = reallocFallback m ptr layout new_size st1 mem
                [.growCall ptr layout new_size] := by
          unfold reallocDefault
          rw [if_pos h1, hg]
        rw [hred] at herr
        rcases ha2 : m.alloc (Layout.from_size_align_unchecked new_size layout.align) st1
          with ⟨ae | ⟨p, usable⟩, st2⟩
        · have hred2 : reallocFallback m ptr layout new_size st1 mem
              [.growCall ptr layout new_size]
              = (.error ae, st2, mem,
                  [AEvent.growCall ptr layout new_size]
                    ++ [.allocCall (Layout.from_size_align_unchecked new_size layout.align)]) := by
            unfold reallocFallback
            rw [ha2]
          rw [hred2] at herr
          exact ⟨st1, st2, by rw [ha2]⟩
        · have hred2 : reallocFallback m ptr layout new_size st1 mem
              [.growCall ptr layout new_size]
              = (.ok (p, usable), m.dealloc ptr layout st2,
                  memCopy mem ptr p (min layout.size new_size),
                  [AEvent.growCall ptr layout new_size]
                    ++ [.allocCall (Layout.from_size_align_unchecked new_size layout.align),
                      .deallocCall ptr layout]) := by
            unfold reallocFallback
            rw [ha2]
          rw [hred2] at herr
          cases herr
      · have hred : reallocDefault m ptr layout new_size st mem
            = (.ok (ptr, sz), st1, mem, [.growCall ptr layout new_size]) := by
          unfold reallocDefault
          rw [if_pos h1, hg]
        rw [hred] at herr
        cases herr
    · by_cases h2 : new_size < layout.size
      · rcases hs : m.shrink_in_place ptr layout new_size st with ⟨se | sz, st1⟩
        · have hred : reallocDefault m ptr layout new_size st mem
              = reallocFallback m ptr layout new_size st1 mem
                  [.shrinkCall ptr layout new_size] := by
            unfold reallocDefault
            rw [if_neg h1, if_pos h2, hs]
          rw [hred] at herr
          rcases ha2 : m.alloc (Layout.from_size_align_unchecked new_size layout.align) st1
            with ⟨ae | ⟨p, usable⟩, st2⟩
          · have hred2 : reallocFallback m ptr layout new_size st1 mem
                [.shrinkCall ptr layout new_size]
                = (.error ae, st2, mem,
                    [AEvent.shrinkCall ptr layout new_size]
                      ++ [.allocCall (Layout.from_size_align_unchecked new_size layout.align)]) := by
              unfold reallocFallback
              rw [ha2]
            rw [hred2] at herr
            exact ⟨st1, st2, by rw [ha2]⟩
          · have hred2 : reallocFallback m ptr layout new_size st1 mem
                [.shrinkCall ptr layout new_size]
                = (.ok (p, usable), m.dealloc ptr layout st2,
                    memCopy mem ptr p (min layout.size new_size),
                    [AEvent.shrinkCall ptr layout new_size]
                      ++ [.allocCall (Layout.from_size_align_unchecked new_size layout.align),
                        .deallocCall ptr layout]) := by
              unfold reallocFallback
              rw [ha2]
            rw [hred2] at herr
            cases herr
        · have hred : reallocDefault m ptr layout new_size st mem
              = (.ok (ptr, sz), st1, mem, [.shrinkCall ptr layout new_size]) := by
            unfold reallocDefault
            rw [if_neg h1, if_pos h2, hs]
          rw [hred] at herr
          cases herr
      · have hred : reallocDefault m ptr layout new_size st mem
            = (.ok (ptr, new_size), st, mem, []) := by
          unfold reallocDefault
          rw [if_neg h1, if_neg h2]
        rw [hred] at herr
        cases herr

/-- Claim C2: if the default `realloc` returns an error (its fall-back
allocation failed), the old block has not been deallocated and the byte
memory is exactly as it was before the call: failure is atomic and the
caller observes no partial update. -/
theorem realloc_default_error_atomic {σ : Type} (m : AllocMethods σ) (st : σ)
    (mem : Mem) (ptr : Nat) (layout : Layout) (new_size : Nat) (e : AllocErr)
    (herr : (reallocDefault m ptr layout new_size st mem).1 = .error e) :
    (reallocDefault m ptr layout new_size st mem).2.2.1 = mem ∧
    ∀ p l, AEvent.deallocCall p l ∉ (reallocDefault m ptr layout new_size st mem).2.2.2 := by
  by_cases h1 : layout.size < new_size
  · rcases hg : m.grow_in_place ptr layout new_size st with ⟨ge | sz, st1⟩
    · have hred : reallocDefault m ptr layout new_size st mem
          = reallocFallback m ptr layout new_size st1 mem
              [.growCall ptr layout new_size] := by
        unfold reallocDefault
        rw [if_pos h1, hg]
      rcases ha2 : m.alloc (Layout.from_size_align_unchecked new_size layout.align) st1
        with ⟨ae | ⟨p, usable⟩, st2⟩
      · have hred2 : reallocFallback m ptr layout new_size st1 mem
            [.growCall ptr layout new_size]
            = (.error ae, st2, mem,
                [AEvent.growCall ptr layout new_size]
                  ++ [.allocCall (Layout.from_size_align_unchecked new_size layout.align)]) := by
          unfold reallocFallback
          rw [ha2]
        rw [hred, hred2]
        exact ⟨rfl, by intro p l; simp⟩
      · have hred2 : reallocFallback m ptr layout new_size st1 mem
            [.growCall ptr layout new_size]
            = (.ok (p, usable), m.dealloc ptr layout st2,
                memCopy mem ptr p (min layout.size new_size),
                [AEvent.growCall ptr layout new_size]
                  ++ [.allocCall (Layout.from_size_align_unchecked new_size layout.align),
                    .deallocCall ptr layout]) := by
          unfold reallocFallback
          rw [ha2]
        rw [hred, hred2] at herr
        cases herr
    · have hred : reallocDefault m ptr layout new_size st mem
          = (.ok (ptr, sz), st1, mem, [.growCall ptr layout new_size]) := by
        unfold reallocDefault
        rw [if_pos h1, hg]
      rw [hred] at herr
      cases herr
  · by_cases h2 : new_size < layout.size
    · rcases hs : m.shrink_in_place ptr layout new_size st with ⟨se | sz, st1⟩
      · have hred : reallocDefault m ptr layout new_size st mem
            = reallocFallback m ptr layout new_size st1 mem
                [.shrinkCall ptr layout new_size] := by
          unfold reallocDefault
          rw [if_neg h1, if_pos h2, hs]
        rcases ha2 : m.alloc (Layout.from_size_align_unchecked new_size layout.align) st1
          with ⟨ae | ⟨p, usable⟩, st2⟩
        · have hred2 : reallocFallback m ptr layout new_size st1 mem
              [.shrinkCall ptr layout new_size]
              = (.error ae, st2, mem,
                  [AEvent.shrinkCall ptr layout new_size]
                    ++ [.allocCall (Layout.from_size_align_unchecked new_size layout.align)]) := by
            unfold reallocFallback
            rw [ha2]
          rw [hred, hred2]
          exact ⟨rfl, by intro p l; simp⟩
        · have hred2 : reallocFallback m ptr layout new_size st1 mem
              [.shrinkCall ptr layout new_size]
              = (.ok (p, usable), m.dealloc ptr layout st2,
                  memCopy mem ptr p (min layout.size new_size),
                  [AEvent.shrinkCall ptr layout new_size]
                    ++ [.allocCall (Layout.from_size_align_unchecked new_size layout.align),
                      .deallocCall ptr layout]) := by
            unfold reallocFallback
            rw [ha2]
          rw [hred, hred2] at herr
          cases herr
      · have hred : reallocDefault m ptr layout new_size st mem
            = (.ok (ptr, sz), st1, mem, [.shrinkCall ptr layout new_size]) := by
          unfold reallocDefault
          rw [if_neg h1, if_pos h2, hs]
        rw [hred] at herr
        cases herr
    · have hred : reallocDefault m ptr layout new_size st mem
          = (.ok (ptr, new_size), st, mem, []) := by
        unfold reallocDefault
        rw [if_neg h1, if_neg h2]
      rw [hred] at herr
      cases herr

/-! ## Concrete allocator models used by the witnesses -/

/-- A bump allocator whose state is the next free address; it keeps the
default in-place methods of the trait. -/
def bumpAlloc : AllocMethods Nat :=
  AllocMethods.withDefaults
    (fun l st => (.ok (st, l.size), st + l.size))
    (fun _ _ st => st)

/-- An allocator whose `alloc` always fails; it keeps the default
in-place methods of the trait. -/
def failAlloc : AllocMethods Unit :=
  AllocMethods.withDefaults (fun _ _ => (.error ⟨⟩, ())) (fun _ _ st => st)

/-- The all-zero byte memory. -/
def zeroMem : Mem := fun _ => 0

/-- Witness for `realloc_default_spec`: reallocating to the same size on the
bump allocator returns the original pointer at once, and the in-place
branches and fall-back are exercised on the same concrete data. -/
theorem realloc_default_spec_witness :
    reallocDefault bumpAlloc 5 ⟨4, 4⟩ 4 32 zeroMem = (.ok (5, 4), 32, zeroMem, []) ∧
      reallocDefault bumpAlloc 5 ⟨4, 4⟩ 8 32 zeroMem
        = reallocFallback bumpAlloc 5 ⟨4, 4⟩ 8 32 zeroMem [.growCall 5 ⟨4, 4⟩ 8] := by
  constructor
  · exact (realloc_default_spec bumpAlloc 32 zeroMem 5 ⟨4, 4⟩ 4).1 rfl
  · exact ((realloc_default_spec bumpAlloc 32 zeroMem 5 ⟨4, 4⟩ 8).2.1 (by decide)).2 ⟨⟩ 32 rfl

/-- Witness for `realloc_default_error_atomic`: on the failing allocator a
growing `realloc` errors, the memory is handed back untouched and no
deallocation was traced. -/
theorem realloc_default_error_atomic_witness :
    (reallocDefault failAlloc 5 ⟨4, 4⟩ 8 () zeroMem).2.2.1 = zeroMem ∧
      AEvent.deallocCall 5 ⟨4, 4⟩ ∉ (reallocDefault failAlloc 5 ⟨4, 4⟩ 8 () zeroMem).2.2.2 := by
  have h := realloc_default_error_atomic failAlloc () zeroMem 5 ⟨4, 4⟩ 8 ⟨⟩ rfl
  exact ⟨h.1, h.2 5 ⟨4, 4⟩⟩

/-! ## Default alloc_zeroed (C3) and the default in-place methods (C4) -/

/-- An allocator that over-allocates: for any request it returns the block
at address 100 with usable size 2. -/
def overAlloc : AllocMethods Unit :=
  AllocMethods.withDefaults (fun _ st => (.ok (100, 2), st)) (fun _ _ st => st)

/-- The byte memory whose every byte is 7. -/
def sevenMem : Mem := fun _ => 7

/-- Counterexample to claim C3 as stated: for a 1-byte layout on an
allocator whose `alloc` over-allocates (usable size 2), the default
`alloc_zeroed` succeeds with `(100, 2)`, yet address 101 — a returned byte
of the block, since `100 ≤ 101 < 100 + 2` — still holds 7: the default body
zeroes only `layout.size()` bytes, not all returned bytes. -/
theorem alloc_zeroed_leaves_usable_tail :
    (allocZeroedDefault overAlloc ⟨1, 1⟩ () sevenMem).1 = .ok (100, 2) ∧
      (allocZeroedDefault overAlloc ⟨1, 1⟩ () sevenMem).2.2.1 100 = 0 ∧
      (allocZeroedDefault overAlloc ⟨1, 1⟩ () sevenMem).2.2.1 101 = 7 := by
  refine ⟨rfl, ?_, ?_⟩ <;> decide

/-- Claim C3 (amended): the default `alloc_zeroed` calls `alloc`; on success
it returns the same pointer and usable size, with the `layout.size()`
requested bytes of the block set to zero and every other address unchanged
(bytes beyond `layout.size()` up to the usable size may remain unzeroed);
on failure it returns the same error as `alloc` with no bytes written. -/
theorem alloc_zeroed_default_spec {σ : Type} (m : AllocMethods σ)
    (layout : Layout) (st : σ) (mem : Mem) :
    (∀ p usable st1, m.alloc layout st = (.ok (p, usable), st1) →
      allocZeroedDefault m layout st mem
          = (.ok (p, usable), st1, memWriteBytes mem p 0 layout.size, [.allocCall layout]) ∧
        (∀ a, p ≤ a → a < p + layout.size → memWriteBytes mem p 0 layout.size a = 0) ∧
        (∀ a, a < p ∨ p + layout.size ≤ a → memWriteBytes mem p 0 layout.size a = mem a)) ∧
    (∀ e st1, m.alloc layout st = (.error e, st1) →
      allocZeroedDefault m layout st mem = (.error e, st1, mem, [.allocCall layout])) := by
  constructor
  · intro p usable st1 halloc
    refine ⟨?_, ?_, ?_⟩
    · unfold allocZeroedDefault
      rw [halloc]
    · intro a h1 h2
      unfold memWriteBytes
      rw [if_pos ⟨h1, h2⟩]
    · intro a h
      unfold memWriteBytes
      rw [if_neg (by omega)]
  · intro e st1 halloc
    unfold allocZeroedDefault
    rw [halloc]

/-- Witness for `alloc_zeroed_default_spec`: on the over-allocating model
the requested byte is zeroed and an address outside the request keeps its
contents; on the failing allocator the error passes through unchanged. -/
theorem alloc_zeroed_default_spec_witness :
    memWriteBytes sevenMem 100 0 1 100 = 0 ∧
      memWriteBytes sevenMem 100 0 1 101 = sevenMem 101 ∧
      allocZeroedDefault failAlloc ⟨1, 1⟩ () sevenMem
        = (.error ⟨⟩, (), sevenMem, [.allocCall ⟨1, 1⟩]) := by
  refine ⟨?_, ?_, ?_⟩
  · exact ((alloc_zeroed_default_spec overAlloc ⟨1, 1⟩ () sevenMem).1 100 2 () rfl).2.1
      100 (by omega) (by decide)
  · exact ((alloc_zeroed_default_spec overAlloc ⟨1, 1⟩ () sevenMem).1 100 2 () rfl).2.2
      101 (by decide)
  · exact (alloc_zeroed_default_spec failAlloc ⟨1, 1⟩ () sevenMem).2 ⟨⟩ () rfl

/-- Claim C4: for every allocator built with the defaults of the trait, and for
all arguments, the default `grow_in_place` and `shrink_in_place` return
`Err(CannotReallocInPlace)` unconditionally, leaving the allocator state
unchanged (and they receive no memory to touch). -/
theorem in_place_defaults_always_fail {σ : Type}
    (a : Layout → σ → Except AllocErr (Nat × Nat) × σ)
    (d : Nat → Layout → σ → σ)
    (ptr : Nat) (layout : Layout) (new_size : Nat) (st : σ) :
    (AllocMethods.withDefaults a d).grow_in_place ptr layout new_size st
        = (.error ⟨⟩, st) ∧
      (AllocMethods.withDefaults a d).shrink_in_place ptr layout new_size st
        = (.error ⟨⟩, st) ∧
      growInPlaceDefault σ ptr layout new_size st = (.error ⟨⟩, st) ∧
      shrinkInPlaceDefault σ ptr layout new_size st = (.error ⟨⟩, st) :=
  ⟨rfl, rfl, rfl, rfl⟩

/-! ## Box (C10) -/

/-- Value of `NonNull::dangling()` for a layout: a well-aligned, non-null,
non-dereferenceable address, namely the alignment itself. -/
def danglingPtr (l : Layout) : Nat := l.align

/-- Outcome of `Box::new_in`: either a box pointer with the successor state
and the allocator calls made, or divergence through `handle_alloc_error`. -/
inductive BoxNewResult (σ : Type) where
  | ok (ptr : Nat) (st : σ) (evs : List AEvent)
  | oomAbort (l : Layout) (st : σ) (evs : List AEvent)

/-- Function `Box::new_in` (src/src/liballoc/boxed.rs lines 48-64), tracking only the
allocator interaction: for a zero-sized layout the pointer is
`NonNull::dangling()` and no allocator call is made; otherwise `alloc` is
called, and on failure `handle_alloc_error(layout)` is invoked (which
diverges, recorded as `oomAbort` after an `oomCall` event). -/
def boxNewIn {σ : Type} (m : AllocMethods σ) (layout : Layout) (st : σ) :
    BoxNewResult σ :=
  if layout.size = 0 then .ok (danglingPtr layout) st []
  else
    match m.alloc layout st with
    | (.ok (p, _), st1) => .ok p st1 [.allocCall layout]
    | (.error _, st1) => .oomAbort layout st1 [.allocCall layout, .oomCall layout]

/-- The `Drop` glue of `Box` (src/src/liballoc/boxed.rs lines 364-374): runs
the destructor, then deallocates exactly when the layout size is nonzero. -/
def boxDrop {σ : Type} (m : AllocMethods σ) (l : Layout) (ptr : Nat) (st : σ) :
    σ × List AEvent :=
  if l.size ≠ 0 then (m.dealloc ptr l st, [.deallocCall ptr l]) else (st, [])

/-- Claim C10: for a zero-sized value, `Box::new_in` makes no allocator call
and yields the well-aligned, non-null dangling pointer, and dropping such a
box makes no allocator call either; for a nonzero-sized value whose
allocation succeeded, the lifecycle trace is exactly one `alloc` matched by
exactly one `dealloc` of the boxed pointer. -/
theorem box_zst_no_alloc {σ : Type} (m : AllocMethods σ) (l : Layout) (st : σ)
    (ptr : Nat) :
    (l.size = 0 →
      boxNewIn m l st = .ok (danglingPtr l) st [] ∧
      boxDrop m l ptr st = (st, []) ∧
      (0 < l.align → 0 < danglingPtr l ∧ l.align ∣ danglingPtr l)) ∧
    (l.size ≠ 0 →
      ∀ p st1 evs, boxNewIn m l st = .ok p st1 evs →
        evs = [.allocCall l] ∧ (boxDrop m l p st1).2 = [.deallocCall p l]) := by
  constructor
  · intro h
    refine ⟨?_, ?_, ?_⟩
    · unfold boxNewIn
      rw [if_pos h]
    · unfold boxDrop
      rw [if_neg (by omega)]
    · intro hal
      exact ⟨hal, Dvd.intro 1 (by unfold danglingPtr; omega)⟩
  · intro h p st1 evs hnew
    unfold boxNewIn at hnew
    rw [if_neg h] at hnew
    rcases halloc : m.alloc l st with ⟨e | ⟨q, usable⟩, st2⟩
    · rw [halloc] at hnew
      cases hnew
    · rw [halloc] at hnew
      injection hnew with h1 h2 h3
      subst h1
      subst h2
      subst h3
      constructor
      · rfl
      · unfold boxDrop
        rw [if_pos h]

/-- Witness for `box_zst_no_alloc`: boxing a zero-sized value (layout
`(0, 4)`) on the bump allocator touches the allocator in neither direction,
and boxing a 4-byte value allocates once and deallocates once. -/
theorem box_zst_no_alloc_witness :
    (boxNewIn bumpAlloc ⟨0, 4⟩ 32 = .ok 4 32 [] ∧
      boxDrop bumpAlloc ⟨0, 4⟩ 4 32 = (32, [])) ∧
      (boxDrop bumpAlloc ⟨4, 4⟩ 32 36).2 = [.deallocCall 32 ⟨4, 4⟩] := by
  constructor
  · have h := (box_zst_no_alloc bumpAlloc ⟨0, 4⟩ 32 4).1 rfl
    exact ⟨h.1, h.2.1⟩
  · exact ((box_zst_no_alloc bumpAlloc ⟨4, 4⟩ 32 0).2 (by decide) 32 36
      [.allocCall ⟨4, 4⟩] rfl).2

/-! ## The out-of-memory hook (C7, C8) -/

/-- The hook slot `HOOK : AtomicPtr<()>` of src/src/libstd/alloc.rs line 18,
modelled over an abstract type `H` of hook functions: `none` is the initial
null pointer, `some h` a registered hook. -/
def HookSlot (H : Type) : Type := Option H

/-- Function `set_oom_hook` (src/src/libstd/alloc.rs lines 31-33): store the hook,
replacing whatever was there. -/
def set_oom_hook {H : Type} (hook : H) (slot : HookSlot H) : HookSlot H :=
  some hook

/-- Function `take_oom_hook` (src/src/libstd/alloc.rs lines 40-47): swap a null
pointer into the slot; return the previous hook, or the default hook
(`dflt`) when the slot was null. -/
def take_oom_hook {H : Type} (dflt : H) (slot : HookSlot H) : H × HookSlot H :=
  match slot with
  | none => (dflt, none)
  | some h => (h, none)

/-- Function `rust_oom` (src/src/libstd/alloc.rs lines 53-61): load the slot and
invoke the registered hook, or the default hook when the slot is null, on
the failing layout.  The model returns the hook that gets invoked together
with its argument. -/
def rust_oom {H : Type} (dflt : H) (slot : HookSlot H) (layout : Layout) :
    H × Layout :=
  match slot with
  | none => (dflt, layout)
  | some h => (h, layout)

/-- Observable behavior of a hook body: whether it terminates the process,
and the `(size, align)` diagnostics it reports before doing so. -/
inductive HookOutcome where
  | terminates (reported : List (Nat × Nat))
  | diverges (reported : List (Nat × Nat))
  deriving DecidableEq, Repr

/-- Function `default_oom_hook` (src/src/libstd/alloc.rs lines 49-51): the body is
`loop {}` and the layout parameter is ignored, so the observable behavior
is divergence with an empty report. -/
def default_oom_hook (layout : Layout) : HookOutcome :=
  .diverges []

/-- Claim C7: `take_oom_hook` returns the most recently registered hook, or
the default hook if none is registered (or the slot was already taken), and
resets the slot so that a subsequent take or invocation uses the default;
`set_oom_hook` replaces any previous hook (last write wins); `rust_oom`
invokes the currently registered hook on the failing layout, or the default
hook when none is registered. -/
theorem oom_hook_spec (H : Type) (dflt h h1 : H) (slot : HookSlot H)
    (layout : Layout) :
    take_oom_hook dflt (set_oom_hook h slot) = (h, none) ∧
      take_oom_hook dflt (none : HookSlot H) = (dflt, none) ∧
      (take_oom_hook dflt slot).2 = none ∧
      take_oom_hook dflt (take_oom_hook dflt slot).2 = (dflt, none) ∧
      rust_oom dflt (take_oom_hook dflt slot).2 layout = (dflt, layout) ∧
      set_oom_hook h1 (set_oom_hook h slot) = some h1 ∧
      rust_oom dflt (set_oom_hook h slot) layout = (h, layout) ∧
      rust_oom dflt (none : HookSlot H) layout = (dflt, layout) := by
    refine ⟨rfl, rfl, ?_, ?_, ?_, rfl, rfl, rfl⟩ <;> cases slot <;> rfl

/-- Claim C8 concerns `default_oom_hook`: the claim (and the documentation
of `set_oom_hook`, lines 20-25 of src/src/libstd/alloc.rs, which promises
that the default hook prints a message to standard error and aborts) says
the default hook reports the size and alignment of the failing request and then
terminates; the body actually is `loop {}`: for every layout — in
particular the failing request `(size 4, align 4)` — it reports nothing and
never terminates. -/
theorem default_oom_hook_no_report_no_abort :
    (∀ layout : Layout, default_oom_hook layout = .diverges []) ∧
      default_oom_hook ⟨4, 4⟩ = .diverges [] :=
  ⟨fun _ => rfl, rfl⟩

/-! ## The raw buffer reserve (C9) -/

/-- The capacity bookkeeping of the raw growable buffer (element count). -/
structure RawBuf where
  cap : Nat
  deriving DecidableEq, Repr

/-- Modelled from the spec: `RawVec::reserve` of
src/src/liballoc/raw_vec.rs, declared by src/src/lib.rs lines 45-46 but not
present under src/.  Per the specification (§4.2), `reserve(used,
additional)` ensures capacity ≥ `used + additional`: if the capacity is
already sufficient it is a no-op performing no reallocation, otherwise it
grows the capacity to `max(used + additional, capacity × 2)`.  The returned
Boolean records whether a real reallocation was performed. -/
def RawBuf.reserve (b : RawBuf) (used additional : Nat) : RawBuf × Bool :=
  if used + additional ≤ b.cap then (b, false)
  else ({ cap := max (used + additional) (b.cap * 2) }, true)

/-- Claim C9: `reserve(used, additional)` ensures capacity ≥
`used + additional`; when the capacity is already sufficient it performs no
reallocation and leaves the buffer unchanged, and otherwise it grows the
capacity to `max(used + additional, capacity × 2)`; consequently a second
call with the same arguments is a no-op, so at most one real reallocation
happens across the two calls. -/
theorem reserve_spec (b : RawBuf) (used additional : Nat) :
    used + additional ≤ (b.reserve used additional).1.cap ∧
      (used + additional ≤ b.cap → b.reserve used additional = (b, false)) ∧
      (¬ used + additional ≤ b.cap →
        (b.reserve used additional).1.cap = max (used + additional) (b.cap * 2) ∧
          (b.reserve used additional).2 = true) ∧
      (b.reserve used additional).1.reserve used additional
        = ((b.reserve used additional).1, false) := by
  by_cases h : used + additional ≤ b.cap
  · have hred : b.reserve used additional = (b, false) := by
      unfold RawBuf.reserve
      rw [if_pos h]
    refine ⟨by rw [hred]; exact h, fun _ => hred, fun hc => absurd h hc, ?_⟩
    rw [hred]
    unfold RawBuf.reserve
    rw [if_pos h]
  · have hred : b.reserve used additional
        = ({ cap := max (used + additional) (b.cap * 2) }, true) := by
      unfold RawBuf.reserve
      rw [if_neg h]
    have hcap : used + additional ≤ max (used + additional) (b.cap * 2) :=
      le_max_left _ _
    refine ⟨by rw [hred]; exact hcap, fun hc => absurd hc h, fun _ => by rw [hred]; exact ⟨rfl, rfl⟩, ?_⟩
    rw [hred]
    unfold RawBuf.reserve
    rw [if_pos hcap]

/-- Witness for `reserve_spec`: reserving 3 elements on an empty buffer
grows it to capacity 3 with one reallocation, and reserving the same on the
grown buffer is a no-op. -/
theorem reserve_spec_witness :
    ((RawBuf.mk 0).reserve 0 3).1.cap = 3 ∧
      ((RawBuf.mk 0).reserve 0 3).2 = true ∧
      (RawBuf.mk 3).reserve 0 3 = (⟨3⟩, false) := by
  have h := (reserve_spec ⟨0⟩ 0 3).2.2.1 (by decide)
  have h2 := (reserve_spec ⟨3⟩ 0 3).2.1 (by decide)
  refine ⟨?_, h.2, h2⟩
  rw [h.1]
  decide
